import Mathlib

/-
  Verification of the swap-event pricing and large-trade classification core
  of the scraper-datos repository.

  The Python source is shallowly embedded: real-number (Python float)
  arithmetic is modelled by exact rationals (ℚ), machine integers by ℕ/ℤ,
  fallible functions by Option, and the external transport collaborators
  (web3 reads, Etherscan HTTP calls) by explicit function parameters.
-/

/-- Lower-casing of an address string (Python `str.lower()` as applied to
hex addresses). -/
def lowerAddr (s : String) : String := ⟨s.data.map Char.toLower⟩

/-- Pool metadata as returned by `get_pool_info` / `get_token_info`:
`{token0, token1, decimals0, decimals1}`. -/
structure PoolInfo where
  token0 : String
  token1 : String
  decimals0 : Nat
  decimals1 : Nat

/-- Decoded Uniswap V2 swap event: four unsigned raw amounts. -/
structure V2Swap where
  amount0In : Nat
  amount1In : Nat
  amount0Out : Nat
  amount1Out : Nat

/-- Decoded Uniswap V3 swap event: two signed raw amounts and the
square-root price state (uint160, hence a natural number). -/
structure V3Swap where
  amount0 : Int
  amount1 : Int
  sqrtPriceX96 : Nat

namespace UniswapV2

/-- `UniswapV2Extractor.calculate_token_price` (src/uniswap/v2/extractor.py,
lines 173-223).  The four raw amounts are converted to decimal units and the
price is the counter-asset delta divided by the target-asset delta, chosen by
swap direction; any other pattern yields `none`. -/
def calculate_token_price (decodedEvent : V2Swap) (poolInfo : PoolInfo)
    (tokenAddress : String) : Option ℚ :=
  let token := lowerAddr tokenAddress
  let a0in : ℚ := (decodedEvent.amount0In : ℚ) / 10 ^ poolInfo.decimals0
  let a1in : ℚ := (decodedEvent.amount1In : ℚ) / 10 ^ poolInfo.decimals1
  let a0out : ℚ := (decodedEvent.amount0Out : ℚ) / 10 ^ poolInfo.decimals0
  let a1out : ℚ := (decodedEvent.amount1Out : ℚ) / 10 ^ poolInfo.decimals1
  if token = poolInfo.token0 then
    if 0 < a0in ∧ 0 < a1out then some (a1out / a0in)
    else if 0 < a1in ∧ 0 < a0out then some (a1in / a0out)
    else none
  else if token = poolInfo.token1 then
    if 0 < a1in ∧ 0 < a0out then some (a0out / a1in)
    else if 0 < a0in ∧ 0 < a1out then some (a0in / a1out)
    else none
  else none

end UniswapV2

namespace UniswapV3

/-- Method 2 of `UniswapV3Extractor.calculate_token_price`
(src/uniswap/v3/extractor.py, lines 253-296): the amount-ratio fallback.
`token` is the already lower-cased target address (the caller lowers it
once at the top of the method).  Both legs must be strictly positive or
both strictly negative; the result must additionally pass the
`0 < price ≤ 1e10` sanity validation, else `none`. -/
def fallbackPrice (decodedEvent : V3Swap) (poolInfo : PoolInfo)
    (token : String) : Option ℚ :=
  let amount0Decimal : ℚ := (decodedEvent.amount0 : ℚ) / 10 ^ poolInfo.decimals0
  let amount1Decimal : ℚ := (decodedEvent.amount1 : ℚ) / 10 ^ poolInfo.decimals1
  let raw : Option ℚ :=
    if token = poolInfo.token0 then
      if 0 < amount0Decimal ∧ 0 < amount1Decimal then
        some (amount1Decimal / amount0Decimal)
      else if amount0Decimal < 0 ∧ amount1Decimal < 0 then
        some (|amount1Decimal| / |amount0Decimal|)
      else none
    else if token = poolInfo.token1 then
      if 0 < amount1Decimal ∧ 0 < amount0Decimal then
        some (amount0Decimal / amount1Decimal)
      else if amount1Decimal < 0 ∧ amount0Decimal < 0 then
        some (|amount0Decimal| / |amount1Decimal|)
      else none
    else none
  match raw with
  | some q => if 0 < q ∧ q ≤ 10 ^ 10 then some q else none
  | none => none

/-- `UniswapV3Extractor.calculate_token_price` (src/uniswap/v3/extractor.py,
lines 189-300).  Method 1 derives the price from `sqrtPriceX96`:
`ratio = (sqrtPriceX96 / 2^96)^2 * (10^decimals1 / 10^decimals0)`, the
price is `ratio` for token0 and `1/ratio` for token1; a target token in
neither slot returns `none` directly.  If the primary price fails the
`0 < price ≤ 1e10` validation (in Python a zero ratio for a token1 target
raises ZeroDivisionError, likewise landing in Method 2; in ℚ `1/0 = 0`
fails the same validation), the amount-ratio fallback is used. -/
def calculate_token_price (decodedEvent : V3Swap) (poolInfo : PoolInfo)
    (tokenAddress : String) : Option ℚ :=
  let token := lowerAddr tokenAddress
  let priceRatioVal : ℚ :=
    ((decodedEvent.sqrtPriceX96 : ℚ) / 2 ^ 96) ^ 2 *
      ((10 ^ poolInfo.decimals1 : ℚ) / (10 ^ poolInfo.decimals0 : ℚ))
  let primary : Option ℚ :=
    if token = poolInfo.token0 then some priceRatioVal
    else if token = poolInfo.token1 then some (1 / priceRatioVal)
    else none
  match primary with
  | none => none
  | some p =>
    if 0 < p ∧ p ≤ 10 ^ 10 then some p
    else fallbackPrice decodedEvent poolInfo token

end UniswapV3

namespace PriceCalculator

/-- `PriceCalculator.calculate_token_price` (src/pricing/price_calculator.py,
lines 17-49): works on the raw integer amounts only; the `tokenAddress` and
`poolAddress` parameters are accepted but never read, and no decimal
adjustment or token-orientation check happens. -/
def calculate_token_price (swapData : V2Swap) (tokenAddress : String)
    (poolAddress : String) : Option ℚ :=
  if 0 < swapData.amount0In ∧ 0 < swapData.amount1Out then
    some ((swapData.amount1Out : ℚ) / (swapData.amount0In : ℚ))
  else if 0 < swapData.amount1In ∧ 0 < swapData.amount0Out then
    some ((swapData.amount1In : ℚ) / (swapData.amount0Out : ℚ))
  else none

end PriceCalculator

namespace EnhancedUSDTOracle

/-- Mainnet WETH address constant from `EnhancedUSDTOracle.__init__`. -/
def WETH : String := "0xc02aaa39b223fe8d0a0e5c4f27ead9083c756cc2"

/-- Mainnet USDT address constant from `EnhancedUSDTOracle.__init__`. -/
def USDT : String := "0xdac17f958d2ee523a2206206994597c13d831ec7"

/-- `0.1 ETH` in wei (`int(0.1 * 10**18)`). -/
def BIG_BUY_ETH_THRESHOLD : ℤ := 10 ^ 17

/-- `1000 USDT` in micro-USDT. -/
def BIG_BUY_USDT_THRESHOLD : ℤ := 1000000000

/-- The two pool-metadata fields read by `get_usdt_value_for_swap`. -/
structure PoolMeta where
  t0 : String
  t1 : String

/-- A normalized swap record `{a0, a1, b}` (signed raw amounts and block). -/
structure SwapRec where
  a0 : ℤ
  a1 : ℤ
  b : ℕ

/-- `EnhancedUSDTOracle.get_usdt_value_for_swap`
(src/pricing/enhanced_usdt_oracle.py, lines 221-276).  `ethUsdtScaled`
stands for the result of `self.get_eth_usdt_price_scaled(block_number)`;
Python truthiness of `if eth_usdt_scaled:` and `if usdt_value and ...`
makes a zero value behave like `None` there.  `//` is Python floor
division, hence `Int.fdiv`.  Returns `(usdt_value_micro, is_big_buy)`. -/
def get_usdt_value_for_swap (metadata : PoolMeta) (ethUsdtScaled : Option ℤ)
    (swap : SwapRec) : Option ℤ × Bool :=
  let token0 := metadata.t0
  let token1 := metadata.t1
  let usdtValue : Option ℤ :=
    if token0 = lowerAddr USDT then some |swap.a0|
    else if token1 = lowerAddr USDT then some |swap.a1|
    else if token0 = lowerAddr WETH then
      match ethUsdtScaled with
      | some p => if p ≠ 0 then some (Int.fdiv (|swap.a0| * p) (10 ^ 18)) else none
      | none => none
    else if token1 = lowerAddr WETH then
      match ethUsdtScaled with
      | some p => if p ≠ 0 then some (Int.fdiv (|swap.a1| * p) (10 ^ 18)) else none
      | none => none
    else none
  let isBigBuyByValue : Bool :=
    match usdtValue with
    | some v => decide (v ≠ 0 ∧ BIG_BUY_USDT_THRESHOLD ≤ v)
    | none => false
  let isBigBuy : Bool :=
    if token0 = lowerAddr WETH ∧ BIG_BUY_ETH_THRESHOLD ≤ |swap.a0| then true
    else if token1 = lowerAddr WETH ∧ BIG_BUY_ETH_THRESHOLD ≤ |swap.a1| then true
    else isBigBuyByValue
  (usdtValue, isBigBuy)

/-- The oracle's bucketed price cache (`self.eth_usdt_price_cache`), an
association list from bucket key to scaled price. -/
abbrev PriceCache := List (ℕ × ℤ)

/-- Dictionary lookup in the bucketed price cache. -/
def lookupCache : PriceCache → ℕ → Option ℤ
  | [], _ => none
  | (k, v) :: rest, key => if k = key then some v else lookupCache rest key

/-- `self.cache_block_size = 300` (about one hour of blocks). -/
def cache_block_size : ℕ := 300

/-- The cache key `(block_number // self.cache_block_size) * self.cache_block_size`. -/
def bucketKey (blockNumber : ℕ) : ℕ :=
  blockNumber / cache_block_size * cache_block_size

/-- Tiers 2 and 3 of `get_eth_usdt_price_scaled`: the live Chainlink read
(`tier2`, current price, may be unavailable) and the hard-coded
`int(3500.0 * 1_000_000)` fallback.  The read count 1 records the single
tier-1 historical-state read already attempted on this cache-miss path. -/
def tier2Result (tier2 : Option ℚ) (blockRange : ℕ) (cache : PriceCache) :
    Option ℤ × ℕ × PriceCache :=
  match tier2 with
  | some ethUsdPrice =>
    if 0 < ethUsdPrice then
      let scaled : ℤ := ⌊ethUsdPrice * 1000000⌋
      (some scaled, 1, (blockRange, scaled) :: cache)
    else (some 3500000000, 1, (blockRange, 3500000000) :: cache)
  | none => (some 3500000000, 1, (blockRange, 3500000000) :: cache)

/-- `EnhancedUSDTOracle.get_eth_usdt_price_scaled`
(src/pricing/enhanced_usdt_oracle.py, lines 101-138).  `tier1` stands for
the historical `_get_v3_price_from_slot0` read of the WETH/USDC pool at the
requested block (an external web3 call); `tier2` for the live Chainlink
price.  The result is `(price, historical reads performed, new cache)`:
a cache hit short-circuits every tier with zero reads, a miss performs
exactly one historical read and caches whatever scaled price the tiers
produce (`int(p * 1_000_000)` truncates toward zero; the guards keep the
value positive so `Int.floor` agrees). -/
def get_eth_usdt_price_scaled (tier1 : ℕ → Option ℚ) (tier2 : Option ℚ)
    (cache : PriceCache) (blockNumber : ℕ) : Option ℤ × ℕ × PriceCache :=
  let blockRange := bucketKey blockNumber
  match lookupCache cache blockRange with
  | some v => (some v, 0, cache)
  | none =>
    match tier1 blockNumber with
    | some ethUsdcPrice =>
      if 0 < ethUsdcPrice then
        let scaled : ℤ := ⌊ethUsdcPrice * 1000000⌋
        (some scaled, 1, (blockRange, scaled) :: cache)
      else tier2Result tier2 blockRange cache
    | none => tier2Result tier2 blockRange cache

/-- A run of oracle queries: fold `get_eth_usdt_price_scaled` over a list of
queried block numbers, threading the cache. -/
def oracleRun (tier1 : ℕ → Option ℚ) (tier2 : Option ℚ) :
    PriceCache → List ℕ → List (Option ℤ × ℕ) × PriceCache
  | cache, [] => ([], cache)
  | cache, b :: bs =>
    let r := get_eth_usdt_price_scaled tier1 tier2 cache b
    let rest := oracleRun tier1 tier2 r.2.2 bs
    ((r.1, r.2.1) :: rest.1, rest.2)

/-- Total number of historical-state reads that the queries falling in
bucket `β` perform during a run. -/
def bucketReads (tier1 : ℕ → Option ℚ) (tier2 : Option ℚ) :
    PriceCache → List ℕ → ℕ → ℕ
  | _, [], _ => 0
  | cache, b :: bs, β =>
    let r := get_eth_usdt_price_scaled tier1 tier2 cache b
    (if bucketKey b = β then r.2.1 else 0) + bucketReads tier1 tier2 r.2.2 bs β

end EnhancedUSDTOracle

namespace USDTOracle

/-- `USDTOracle.is_big_buy_usdt` (src/pricing/usdt_oracle.py, lines
129-142): `None` is never a big buy, otherwise the inclusive comparison
`usdt_value_raw >= threshold_usdt`. -/
def is_big_buy_usdt (usdtValueRaw : Option ℤ) (thresholdUsdt : ℤ) : Bool :=
  match usdtValueRaw with
  | none => false
  | some v => decide (thresholdUsdt ≤ v)

end USDTOracle

/-- A formatted transaction as consumed by `filter_big_buys` (only the
`valueETH` field is read). -/
structure Tx where
  valueETH : ℚ

namespace BigBuyFilter

/-- `filter_big_buys` (src/filters/big_buy_filter.py): keep transactions
with `valueETH >= threshold_eth` (inclusive). -/
def filter_big_buys (transactions : List Tx) (thresholdEth : ℚ) : List Tx :=
  transactions.filter (fun tx => decide (thresholdEth ≤ tx.valueETH))

end BigBuyFilter

namespace BigBuyAnalyzer

/-- The per-event `eth_amount` computed inside
`BigBuyAnalyzer.find_big_buys_in_history` (src/pricing/big_buy_analyzer.py,
lines 127-139): it is nonzero only for the buy direction (base asset in,
non-base asset out); `token0IsWeth` records which pool slot holds WETH. -/
def eth_amount (decodedEvent : V2Swap) (decimals0 decimals1 : ℕ)
    (token0IsWeth : Bool) : ℚ :=
  let amount0In : ℚ := (decodedEvent.amount0In : ℚ) / 10 ^ decimals0
  let amount1In : ℚ := (decodedEvent.amount1In : ℚ) / 10 ^ decimals1
  let amount0Out : ℚ := (decodedEvent.amount0Out : ℚ) / 10 ^ decimals0
  let amount1Out : ℚ := (decodedEvent.amount1Out : ℚ) / 10 ^ decimals1
  if token0IsWeth then
    if 0 < amount0In ∧ 0 < amount1Out then amount0In else 0
  else
    if 0 < amount1In ∧ 0 < amount0Out then amount1In else 0

/-- The big-buy test `eth_amount >= threshold_eth` of
`find_big_buys_in_history` (line 141). -/
def flags_big_buy (decodedEvent : V2Swap) (decimals0 decimals1 : ℕ)
    (token0IsWeth : Bool) (thresholdEth : ℚ) : Bool :=
  decide (thresholdEth ≤ eth_amount decodedEvent decimals0 decimals1 token0IsWeth)

end BigBuyAnalyzer

namespace EtherscanClient

/-- The chunk intervals that the `while current_block <= to_block` loop of
`EtherscanClient.get_swap_events` (src/client/etherscan_client.py, lines
96-144) walks: each iteration covers
`[current_block, min(current_block + batch_size - 1, to_block)]` and then
jumps past it.  `fuel` bounds the number of iterations; the theorems show
that `toBlock + 1 - fromBlock` iterations always suffice (the Python loop
terminates because `end_block + 1 > current_block` whenever
`batch_size >= 1`). -/
def chunksAux (batchSize : ℕ) : ℕ → ℕ → ℕ → List (ℕ × ℕ)
  | 0, _, _ => []
  | fuel + 1, currentBlock, toBlock =>
    if currentBlock ≤ toBlock then
      (currentBlock, min (currentBlock + batchSize - 1) toBlock) ::
        chunksAux batchSize fuel (min (currentBlock + batchSize - 1) toBlock + 1) toBlock
    else []

/-- The full chunk sequence for the block range `[fromBlock, toBlock]`. -/
def chunks (batchSize fromBlock toBlock : ℕ) : List (ℕ × ℕ) :=
  chunksAux batchSize (toBlock + 1 - fromBlock) fromBlock toBlock

/-- The accumulating loop body of `EtherscanClient.get_swap_events`:
`fetch` stands for the `get_logs` HTTP call for one chunk; a successful
chunk extends `all_logs`, a raised exception (including the benign
"No records found") leaves `all_logs` untouched and the loop advances to
the next chunk either way. -/
def getSwapEventsAux {α : Type} (fetch : ℕ → ℕ → Except String (List α))
    (batchSize : ℕ) : ℕ → ℕ → ℕ → List α → List α
  | 0, _, _, allLogs => allLogs
  | fuel + 1, currentBlock, toBlock, allLogs =>
    if currentBlock ≤ toBlock then
      let endBlock := min (currentBlock + batchSize - 1) toBlock
      let newLogs :=
        match fetch currentBlock endBlock with
        | Except.ok logs => allLogs ++ logs
        | Except.error _ => allLogs
      getSwapEventsAux fetch batchSize fuel (endBlock + 1) toBlock newLogs
    else allLogs

/-- `EtherscanClient.get_swap_events` (src/client/etherscan_client.py,
lines 72-146), starting from an empty `all_logs`. -/
def get_swap_events {α : Type} (fetch : ℕ → ℕ → Except String (List α))
    (fromBlock toBlock batchSize : ℕ) : List α :=
  getSwapEventsAux fetch batchSize (toBlock + 1 - fromBlock) fromBlock toBlock []

/-- The logs a single chunk contributes: its fetched logs on success,
nothing when the request fails. -/
def chunkResult {α : Type} (fetch : ℕ → ℕ → Except String (List α))
    (c : ℕ × ℕ) : List α :=
  match fetch c.1 c.2 with
  | Except.ok logs => logs
  | Except.error _ => []

end EtherscanClient

/-- A raw log entry as consumed by `PriceExtractor.extract_prices`:
`decoded` is the result of the external web3 ABI decode of the entry's
`data`/`topics` (`EventDecoder.decode_swap_event`, which returns `None`
on malformed payloads), together with the entry's block and timestamp. -/
structure RawEvent where
  decoded : Option V2Swap
  blockNumber : ℕ
  timeStamp : ℕ

/-- A successfully priced swap, as appended by
`PriceExtractor.extract_prices`. -/
structure PricePoint where
  timestamp : ℕ
  block_number : ℕ
  token_price_eth : ℚ
  token_price_usd : Option ℚ
  eth_price_usd : Option ℚ
  deriving DecidableEq

namespace PriceExtractor

/-- `PriceExtractor.extract_prices` (src/pricing/price_extractor.py, lines
54-117).  `ethPriceUsd` stands for
`self.eth_price_reader.get_eth_price_at_timestamp` (an external CSV
lookup).  Each event is decoded, priced with the inline V2 direction logic
(lines 77-100), and contributes one `PricePoint`; undecodable or
unpriceable events are skipped.  `price_usd` is `None` when the ETH price
is `None` or `0` (Python truthiness of `if eth_price_usd`). -/
def extract_prices (info : PoolInfo) (tokenAddress : String)
    (ethPriceUsd : ℕ → Option ℚ) (swapEvents : List RawEvent) : List PricePoint :=
  let token0 := lowerAddr info.token0
  let token1 := lowerAddr info.token1
  let token := lowerAddr tokenAddress
  swapEvents.filterMap (fun event =>
    match event.decoded with
    | none => none
    | some decodedEvent =>
      let ethUsd := ethPriceUsd event.timeStamp
      let a0in : ℚ := (decodedEvent.amount0In : ℚ) / 10 ^ info.decimals0
      let a1in : ℚ := (decodedEvent.amount1In : ℚ) / 10 ^ info.decimals1
      let a0out : ℚ := (decodedEvent.amount0Out : ℚ) / 10 ^ info.decimals0
      let a1out : ℚ := (decodedEvent.amount1Out : ℚ) / 10 ^ info.decimals1
      let priceEth : Option ℚ :=
        if token = token0 then
          if 0 < a0in ∧ 0 < a1out then some (a1out / a0in)
          else if 0 < a1in ∧ 0 < a0out then some (a1in / a0out)
          else none
        else if token = token1 then
          if 0 < a1in ∧ 0 < a0out then some (a0out / a1in)
          else if 0 < a0in ∧ 0 < a1out then some (a0in / a1out)
          else none
        else none
      match priceEth with
      | none => none
      | some p =>
        some { timestamp := event.timeStamp
               block_number := event.blockNumber
               token_price_eth := p
               token_price_usd :=
                 match ethUsd with
                 | some e => if e ≠ 0 then some (p * e) else none
                 | none => none
               eth_price_usd := ethUsd })

/-- The projection of the dictionary returned by
`PriceExtractor.analyze_token_complete` that the error-reporting claim is
about.  The omitted `price_stats` and `big_buy_analysis` entries are
computed from `prices` alone (`calculate_price_stats(prices)`,
`get_big_buy_analysis_from_prices(prices, threshold)`) and are the
constant `{}` whenever `prices` is empty, so equal `prices` and `error`
fields imply the full dictionaries are equal. -/
structure AnalysisResult where
  prices : List PricePoint
  error : Option String
  deriving DecidableEq

/-- `PriceExtractor.analyze_token_complete` (src/pricing/price_extractor.py,
lines 181-221): when `extract_prices` produced nothing the run reports
`error = 'No prices found'`, otherwise `error = None`. -/
def analyze_token_complete (info : PoolInfo) (tokenAddress : String)
    (ethPriceUsd : ℕ → Option ℚ) (swapEvents : List RawEvent) : AnalysisResult :=
  let prices := extract_prices info tokenAddress ethPriceUsd swapEvents
  if prices.isEmpty then { prices := [], error := some "No prices found" }
  else { prices := prices, error := none }

end PriceExtractor

/-- Powers of ten: the claim's decimal adjustment `10^(decimals1 - decimals0)`
(an integer exponent) agrees with the code's `10**decimals1 / 10**decimals0`. -/
theorem ten_zpow_sub (d1 d0 : ℕ) :
    (10 : ℚ) ^ ((d1 : ℤ) - (d0 : ℤ)) = (10 ^ d1 : ℚ) / (10 ^ d0 : ℚ) := by
  rw [zpow_sub₀ (by norm_num : (10 : ℚ) ≠ 0), zpow_natCast, zpow_natCast]

/-- C10: `PriceCalculator.calculate_token_price` depends only on the four
amount fields; the `token_address` and `pool_address` arguments never
influence the result (no decimal adjustment, no token-orientation check). -/
theorem c10_price_calculator_ignores_addresses (s : V2Swap)
    (t p t' p' : String) :
    PriceCalculator.calculate_token_price s t p =
      PriceCalculator.calculate_token_price s t' p' := rfl

/-- C1: for a decoded V2 swap with `amount0In = X > 0`, `amount1Out = Y > 0`
and the other two legs zero, pricing token0 yields the decimal-adjusted
ratio `Y/X`, pricing token1 yields `X/Y`, and the two prices are exact
reciprocals. -/
theorem c1_v2_direction_symmetry (X Y : ℕ) (pool : PoolInfo)
    (hX : 0 < X) (hY : 0 < Y)
    (h0 : lowerAddr pool.token0 = pool.token0)
    (h1 : lowerAddr pool.token1 = pool.token1)
    (hne : pool.token0 ≠ pool.token1) :
    UniswapV2.calculate_token_price ⟨X, 0, 0, Y⟩ pool pool.token0 =
      some (((Y : ℚ) / 10 ^ pool.decimals1) / ((X : ℚ) / 10 ^ pool.decimals0)) ∧
    UniswapV2.calculate_token_price ⟨X, 0, 0, Y⟩ pool pool.token1 =
      some (((X : ℚ) / 10 ^ pool.decimals0) / ((Y : ℚ) / 10 ^ pool.decimals1)) ∧
    (((Y : ℚ) / 10 ^ pool.decimals1) / ((X : ℚ) / 10 ^ pool.decimals0)) *
      (((X : ℚ) / 10 ^ pool.decimals0) / ((Y : ℚ) / 10 ^ pool.decimals1)) = 1 := by
  have hXQ : (0 : ℚ) < (X : ℚ) / 10 ^ pool.decimals0 :=
    div_pos (by exact_mod_cast hX) (by positivity)
  have hYQ : (0 : ℚ) < (Y : ℚ) / 10 ^ pool.decimals1 :=
    div_pos (by exact_mod_cast hY) (by positivity)
  have hne' : pool.token1 ≠ pool.token0 := fun h => hne h.symm
  refine ⟨?_, ?_, ?_⟩
  · simp [UniswapV2.calculate_token_price, h0, hXQ, hYQ]
  · simp [UniswapV2.calculate_token_price, h1, hne', hXQ, hYQ]
  · rw [div_mul_div_comm]
    rw [mul_comm ((X : ℚ) / 10 ^ pool.decimals0) ((Y : ℚ) / 10 ^ pool.decimals1)]
    exact div_self (ne_of_gt (mul_pos hYQ hXQ))

/-- C2: with `sqrtPriceX96 > 0`, the V3 primary price is
`ratio = (sqrtPriceX96 / 2^96)^2 * 10^(decimals1 - decimals0)` for a
token0 target and `1/ratio` for a token1 target, and it is returned
exactly when it is strictly positive and at most `1e10`; otherwise the
calculation falls through to the amount-ratio fallback method. -/
theorem c2_v3_primary_price (e : V3Swap) (pool : PoolInfo) (t : String)
    (hs : 0 < e.sqrtPriceX96) (ratioVal : ℚ)
    (hr : ratioVal = ((e.sqrtPriceX96 : ℚ) / 2 ^ 96) ^ 2 *
        (10 : ℚ) ^ ((pool.decimals1 : ℤ) - (pool.decimals0 : ℤ))) :
    (lowerAddr t = pool.token0 →
      ((0 < ratioVal ∧ ratioVal ≤ 10 ^ 10) →
          UniswapV3.calculate_token_price e pool t = some ratioVal) ∧
      (¬ (0 < ratioVal ∧ ratioVal ≤ 10 ^ 10) →
          UniswapV3.calculate_token_price e pool t =
            UniswapV3.fallbackPrice e pool (lowerAddr t))) ∧
    (lowerAddr t ≠ pool.token0 → lowerAddr t = pool.token1 →
      ((0 < 1 / ratioVal ∧ 1 / ratioVal ≤ 10 ^ 10) →
          UniswapV3.calculate_token_price e pool t = some (1 / ratioVal)) ∧
      (¬ (0 < 1 / ratioVal ∧ 1 / ratioVal ≤ 10 ^ 10) →
          UniswapV3.calculate_token_price e pool t =
            UniswapV3.fallbackPrice e pool (lowerAddr t))) := by
  have hform : ratioVal = ((e.sqrtPriceX96 : ℚ) / 2 ^ 96) ^ 2 *
      ((10 ^ pool.decimals1 : ℚ) / (10 ^ pool.decimals0 : ℚ)) := by
    rw [hr, ten_zpow_sub]
  constructor
  · intro h0
    constructor
    · intro hv
      simp [UniswapV3.calculate_token_price, h0, ← hform, hv]
    · intro hv
      simp [UniswapV3.calculate_token_price, h0, ← hform, hv]
  · intro h0 h1
    have hne : pool.token1 ≠ pool.token0 := h1 ▸ h0
    constructor
    · intro hv
      rw [one_div] at hv
      simp [UniswapV3.calculate_token_price, h1, hne, ← hform, hv, one_div]
    · intro hv
      rw [one_div] at hv
      simp [UniswapV3.calculate_token_price, h1, hne, ← hform, one_div]
      intro hpos hle
      exact absurd ⟨inv_pos.mpr hpos, hle⟩ hv

/-- C3 counterexample: a V3 swap whose primary result is rejected
(`ratio = 1e12 > 1e10`) and whose two legs are nonzero but of mixed sign
(the pool's documented signed-amount convention) is priced `none` by the
fallback, not the ratio of absolute values `2` that the claim predicts. -/
theorem c3_counterexample :
    UniswapV3.calculate_token_price ⟨10 ^ 18, -(2 * 10 ^ 18), 2 ^ 96 * 10 ^ 6⟩
        ⟨"0xa", "0xb", 18, 18⟩ "0xa" = none ∧
    ((10 : ℤ) ^ 18 ≠ 0 ∧ (-(2 * 10 ^ 18) : ℤ) ≠ 0) ∧
    UniswapV3.calculate_token_price ⟨10 ^ 18, -(2 * 10 ^ 18), 2 ^ 96 * 10 ^ 6⟩
        ⟨"0xa", "0xb", 18, 18⟩ "0xa" ≠ some 2 := by
  have h : lowerAddr "0xa" = "0xa" := by decide
  have hmain : UniswapV3.calculate_token_price ⟨10 ^ 18, -(2 * 10 ^ 18), 2 ^ 96 * 10 ^ 6⟩
      ⟨"0xa", "0xb", 18, 18⟩ "0xa" = none := by
    simp [UniswapV3.calculate_token_price, UniswapV3.fallbackPrice, h]
    norm_num
  refine ⟨hmain, by norm_num, by rw [hmain]; exact fun hc => Option.noConfusion hc⟩

/-- C3 amended: the V3 fallback returns the decimal-adjusted ratio of
absolute values only when the two legs are both strictly positive or both
strictly negative (subject to the `0 < price ≤ 1e10` validation); legs of
mixed sign, or a zero leg, yield `none`. -/
theorem c3_v3_fallback_sign_branches (e : V3Swap) (pool : PoolInfo)
    (token : String) (a0 a1 : ℚ)
    (ha0 : a0 = (e.amount0 : ℚ) / 10 ^ pool.decimals0)
    (ha1 : a1 = (e.amount1 : ℚ) / 10 ^ pool.decimals1) :
    (token = pool.token0 →
      ((0 < a0 ∧ 0 < a1) ∨ (a0 < 0 ∧ a1 < 0) →
        UniswapV3.fallbackPrice e pool token =
          if 0 < |a1| / |a0| ∧ |a1| / |a0| ≤ 10 ^ 10 then some (|a1| / |a0|)
          else none) ∧
      (¬ ((0 < a0 ∧ 0 < a1) ∨ (a0 < 0 ∧ a1 < 0)) →
        UniswapV3.fallbackPrice e pool token = none)) ∧
    (token ≠ pool.token0 → token = pool.token1 →
      ((0 < a0 ∧ 0 < a1) ∨ (a0 < 0 ∧ a1 < 0) →
        UniswapV3.fallbackPrice e pool token =
          if 0 < |a0| / |a1| ∧ |a0| / |a1| ≤ 10 ^ 10 then some (|a0| / |a1|)
          else none) ∧
      (¬ ((0 < a0 ∧ 0 < a1) ∨ (a0 < 0 ∧ a1 < 0)) →
        UniswapV3.fallbackPrice e pool token = none)) := by
  subst ha0 ha1
  constructor
  · intro h0
    constructor
    · rintro (⟨hp0, hp1⟩ | ⟨hn0, hn1⟩)
      · simp [UniswapV3.fallbackPrice, h0, hp0, hp1, abs_of_pos hp0, abs_of_pos hp1]
      · have h0' : ¬ (0 < (e.amount0 : ℚ) / 10 ^ pool.decimals0) := not_lt.mpr (le_of_lt hn0)
        simp [UniswapV3.fallbackPrice, h0, h0', hn0, hn1]
    · intro hmix
      have hc1 : ¬ (0 < (e.amount0 : ℚ) / 10 ^ pool.decimals0 ∧
          0 < (e.amount1 : ℚ) / 10 ^ pool.decimals1) := fun hh => hmix (Or.inl hh)
      have hc2 : ¬ ((e.amount0 : ℚ) / 10 ^ pool.decimals0 < 0 ∧
          (e.amount1 : ℚ) / 10 ^ pool.decimals1 < 0) := fun hh => hmix (Or.inr hh)
      have hd0 : (0 : ℚ) < 10 ^ pool.decimals0 := by positivity
      have hd1 : (0 : ℚ) < 10 ^ pool.decimals1 := by positivity
      have hi1 : ¬ (0 < e.amount0 ∧ 0 < e.amount1) := by
        rintro ⟨u, v⟩
        exact hc1 ⟨div_pos (by exact_mod_cast u) hd0, div_pos (by exact_mod_cast v) hd1⟩
      have hi2 : ¬ (e.amount0 < 0 ∧ e.amount1 < 0) := by
        rintro ⟨u, v⟩
        exact hc2 ⟨div_neg_of_neg_of_pos (by exact_mod_cast u) hd0,
          div_neg_of_neg_of_pos (by exact_mod_cast v) hd1⟩
      simp [UniswapV3.fallbackPrice, h0, hc1, hc2, hi1, hi2]
  · intro h0 h1
    have hne : pool.token1 ≠ pool.token0 := h1 ▸ h0
    constructor
    · rintro (⟨hp0, hp1⟩ | ⟨hn0, hn1⟩)
      · simp [UniswapV3.fallbackPrice, h1, hne, hp0, hp1, abs_of_pos hp0, abs_of_pos hp1]
      · have h1' : ¬ (0 < (e.amount1 : ℚ) / 10 ^ pool.decimals1) := not_lt.mpr (le_of_lt hn1)
        simp [UniswapV3.fallbackPrice, h1, hne, h1', hn0, hn1]
    · intro hmix
      have hc1 : ¬ (0 < (e.amount1 : ℚ) / 10 ^ pool.decimals1 ∧
          0 < (e.amount0 : ℚ) / 10 ^ pool.decimals0) := fun hh => hmix (Or.inl ⟨hh.2, hh.1⟩)
      have hc2 : ¬ ((e.amount1 : ℚ) / 10 ^ pool.decimals1 < 0 ∧
          (e.amount0 : ℚ) / 10 ^ pool.decimals0 < 0) := fun hh => hmix (Or.inr ⟨hh.2, hh.1⟩)
      have hd0 : (0 : ℚ) < 10 ^ pool.decimals0 := by positivity
      have hd1 : (0 : ℚ) < 10 ^ pool.decimals1 := by positivity
      have hi1 : ¬ (0 < e.amount1 ∧ 0 < e.amount0) := by
        rintro ⟨u, v⟩
        exact hc1 ⟨div_pos (by exact_mod_cast u) hd1, div_pos (by exact_mod_cast v) hd0⟩
      have hi2 : ¬ (e.amount1 < 0 ∧ e.amount0 < 0) := by
        rintro ⟨u, v⟩
        exact hc2 ⟨div_neg_of_neg_of_pos (by exact_mod_cast u) hd1,
          div_neg_of_neg_of_pos (by exact_mod_cast v) hd0⟩
      simp [UniswapV3.fallbackPrice, h1, hne, hc1, hc2, hi1, hi2]

/-- C7 counterexample: a V3 swap with both legs zero but a valid
`sqrtPriceX96` is priced by the primary method (`some 1` here), not `null`
as the claim's "both legs zero yield null" requires for the V3
calculator. -/
theorem c7_counterexample :
    UniswapV3.calculate_token_price ⟨0, 0, 2 ^ 96⟩ ⟨"0xa", "0xb", 18, 18⟩ "0xa"
        = some 1 ∧
    UniswapV3.calculate_token_price ⟨0, 0, 2 ^ 96⟩ ⟨"0xa", "0xb", 18, 18⟩ "0xa"
        ≠ none := by
  have h : lowerAddr "0xa" = "0xa" := by decide
  have hmain : UniswapV3.calculate_token_price ⟨0, 0, 2 ^ 96⟩
      ⟨"0xa", "0xb", 18, 18⟩ "0xa" = some 1 := by
    simp [UniswapV3.calculate_token_price, h]
    norm_num
  exact ⟨hmain, by rw [hmain]; exact fun hc => Option.noConfusion hc⟩

/-- C7 amended: both price calculators are total with an `Option` result
(the Lean embedding is a total function, mirroring the source's
catch-and-return-`None` policy).  A target token in neither pool slot
yields `none` in both calculators; for V2, a zero would-be denominator leg
or all-zero legs yield `none`; for V3 the zero-leg cases yield `none` only
when the primary `sqrtPriceX96` method is also rejected (for instance
`sqrtPriceX96 = 0`), since a valid `sqrtPriceX96` prices the swap even
with zero legs. -/
theorem c7_error_policy (e2 : V2Swap) (e3 : V3Swap) (pool : PoolInfo)
    (t : String) :
    (lowerAddr t ≠ pool.token0 → lowerAddr t ≠ pool.token1 →
      UniswapV2.calculate_token_price e2 pool t = none ∧
      UniswapV3.calculate_token_price e3 pool t = none) ∧
    (e2.amount0In = 0 → e2.amount1In = 0 → e2.amount0Out = 0 →
      e2.amount1Out = 0 → UniswapV2.calculate_token_price e2 pool t = none) ∧
    (lowerAddr t = pool.token0 → e2.amount0In = 0 → e2.amount0Out = 0 →
      UniswapV2.calculate_token_price e2 pool t = none) ∧
    (lowerAddr t = pool.token1 → e2.amount1In = 0 → e2.amount1Out = 0 →
      UniswapV2.calculate_token_price e2 pool t = none) ∧
    (e3.sqrtPriceX96 = 0 → e3.amount0 = 0 → e3.amount1 = 0 →
      UniswapV3.calculate_token_price e3 pool t = none) := by
  refine ⟨?_, ?_, ?_, ?_, ?_⟩
  · intro h0 h1
    constructor
    · simp [UniswapV2.calculate_token_price, h0, h1]
    · simp [UniswapV3.calculate_token_price, h0, h1]
  · intro z0 z1 z2 z3
    simp [UniswapV2.calculate_token_price, z0, z1, z2, z3]
  · intro h0 z0 z2
    simp [UniswapV2.calculate_token_price, h0, z0, z2]
  · intro h1 z1 z3
    by_cases h0 : lowerAddr t = pool.token0
    · simp [UniswapV2.calculate_token_price, h0, z1, z3]
    · simp [UniswapV2.calculate_token_price, h0, h1, z1, z3]
  · intro hs z0 z1
    by_cases h0 : lowerAddr t = pool.token0
    · simp [UniswapV3.calculate_token_price, UniswapV3.fallbackPrice, h0, hs, z0, z1]
    · by_cases h1 : lowerAddr t = pool.token1
      · simp [UniswapV3.calculate_token_price, UniswapV3.fallbackPrice, h0, h1, hs, z0, z1]
      · simp [UniswapV3.calculate_token_price, h0, h1]

/-- C4 counterexample: `EnhancedUSDTOracle.get_usdt_value_for_swap` flags
`is_big_buy = true` for a swap whose WETH (base-asset) leg is negative —
base asset leaving the pool, i.e. a sell under the pool's signed-amount
convention — because it compares absolute magnitudes and never checks the
trade direction. -/
theorem c4_counterexample :
    (EnhancedUSDTOracle.get_usdt_value_for_swap
        ⟨EnhancedUSDTOracle.WETH, "0x1111111111111111111111111111111111111111"⟩
        none ⟨-(10 ^ 18), 5, 1000⟩).2 = true ∧
    (-(10 ^ 18) : ℤ) < 0 := by
  constructor
  · decide
  · norm_num

/-- C4 amended: the V2 big-buy scan of
`BigBuyAnalyzer.find_big_buys_in_history` flags a swap (for a positive
threshold) only when it is a buy — the WETH leg enters the pool and the
non-WETH leg leaves — and the WETH-in amount meets the threshold;
`EnhancedUSDTOracle.get_usdt_value_for_swap`, by contrast, never checks
direction (see the counterexample). -/
theorem c4_analyzer_buy_gating (d : V2Swap) (decimals0 decimals1 : ℕ)
    (token0IsWeth : Bool) (thresholdEth : ℚ) (hthr : 0 < thresholdEth)
    (hflag : BigBuyAnalyzer.flags_big_buy d decimals0 decimals1 token0IsWeth
        thresholdEth = true) :
    (token0IsWeth = true → 0 < d.amount0In ∧ 0 < d.amount1Out) ∧
    (token0IsWeth = false → 0 < d.amount1In ∧ 0 < d.amount0Out) ∧
    thresholdEth ≤ BigBuyAnalyzer.eth_amount d decimals0 decimals1 token0IsWeth := by
  have hle : thresholdEth ≤ BigBuyAnalyzer.eth_amount d decimals0 decimals1 token0IsWeth := by
    have := of_decide_eq_true hflag
    exact this
  refine ⟨?_, ?_, hle⟩
  · intro hw
    subst hw
    by_contra hnot
    have hzero : BigBuyAnalyzer.eth_amount d decimals0 decimals1 true = 0 := by
      simp [BigBuyAnalyzer.eth_amount, hnot]
    rw [hzero] at hle
    exact absurd (lt_of_lt_of_le hthr hle) (lt_irrefl 0)
  · intro hw
    subst hw
    by_contra hnot
    have hzero : BigBuyAnalyzer.eth_amount d decimals0 decimals1 false = 0 := by
      simp [BigBuyAnalyzer.eth_amount, hnot]
    rw [hzero] at hle
    exact absurd (lt_of_lt_of_le hthr hle) (lt_irrefl 0)

/-- C5: the large-purchase comparisons are inclusive at the boundary.
`filter_big_buys` keeps a transaction whose `valueETH` equals the
threshold and drops one below it; `is_big_buy_usdt` is true at exactly the
USDT threshold and false below it; and in the enhanced oracle a buy whose
WETH leg is exactly `BIG_BUY_ETH_THRESHOLD` (0.1 ETH in wei) is flagged
while one wei below — with no USDT value available, hence the ref flag
false — is not. -/
theorem c5_threshold_boundary (thresholdEth : ℚ) (thresholdUsdt : ℤ) (tx : Tx)
    (t1 : String) (a0 a1 : ℤ) (blk : ℕ)
    (ht1u : t1 ≠ lowerAddr EnhancedUSDTOracle.USDT)
    (ht1w : t1 ≠ lowerAddr EnhancedUSDTOracle.WETH) :
    (tx.valueETH = thresholdEth →
      BigBuyFilter.filter_big_buys [tx] thresholdEth = [tx]) ∧
    (tx.valueETH < thresholdEth →
      BigBuyFilter.filter_big_buys [tx] thresholdEth = []) ∧
    USDTOracle.is_big_buy_usdt (some thresholdUsdt) thresholdUsdt = true ∧
    (∀ r : ℤ, r < thresholdUsdt →
      USDTOracle.is_big_buy_usdt (some r) thresholdUsdt = false) ∧
    (|a0| = EnhancedUSDTOracle.BIG_BUY_ETH_THRESHOLD →
      (EnhancedUSDTOracle.get_usdt_value_for_swap ⟨EnhancedUSDTOracle.WETH, t1⟩
        none ⟨a0, a1, blk⟩).2 = true) ∧
    (|a0| = EnhancedUSDTOracle.BIG_BUY_ETH_THRESHOLD - 1 →
      (EnhancedUSDTOracle.get_usdt_value_for_swap ⟨EnhancedUSDTOracle.WETH, t1⟩
        none ⟨a0, a1, blk⟩).2 = false) := by
  have hwu : EnhancedUSDTOracle.WETH ≠ lowerAddr EnhancedUSDTOracle.USDT := by decide
  have hww : EnhancedUSDTOracle.WETH = lowerAddr EnhancedUSDTOracle.WETH := by decide
  refine ⟨?_, ?_, ?_, ?_, ?_, ?_⟩
  · intro h
    have hle : thresholdEth ≤ tx.valueETH := le_of_eq h.symm
    simp [BigBuyFilter.filter_big_buys, hle]
  · intro h
    have hlt : ¬ thresholdEth ≤ tx.valueETH := not_le.mpr h
    simp [BigBuyFilter.filter_big_buys, hlt]
  · simp [USDTOracle.is_big_buy_usdt]
  · intro r hr
    simp [USDTOracle.is_big_buy_usdt, not_le.mpr hr]
  · intro h
    have hge : EnhancedUSDTOracle.BIG_BUY_ETH_THRESHOLD ≤ |a0| := le_of_eq h.symm
    simp [EnhancedUSDTOracle.get_usdt_value_for_swap, hwu, ht1u, ht1w, ← hww, hge]
  · intro h
    have hlt : ¬ EnhancedUSDTOracle.BIG_BUY_ETH_THRESHOLD ≤ |a0| := by
      rw [h]
      simp [EnhancedUSDTOracle.BIG_BUY_ETH_THRESHOLD]
    simp [EnhancedUSDTOracle.get_usdt_value_for_swap, hwu, ht1u, ht1w, ← hww, hlt]
    intro hc
    exact absurd (hc.trans hww) ht1w

/-- C9 counterexample: a run over a range with no events at all and a run
whose range contained a (decodable) event that could not be priced return
identical results — `analyze_token_complete` reports the same
`'No prices found'` record in both cases, so the two outcomes are not
distinguished. -/
theorem c9_counterexample :
    PriceExtractor.analyze_token_complete ⟨"0xa", "0xb", 18, 18⟩ "0xa"
        (fun _ => some 2000) [] =
      PriceExtractor.analyze_token_complete ⟨"0xa", "0xb", 18, 18⟩ "0xa"
        (fun _ => some 2000) [⟨some ⟨0, 0, 0, 0⟩, 100, 1000⟩] ∧
    ([⟨some ⟨0, 0, 0, 0⟩, 100, 1000⟩] : List RawEvent) ≠ [] := by
  constructor
  · have h : lowerAddr "0xa" = "0xa" := by decide
    simp [PriceExtractor.analyze_token_complete, PriceExtractor.extract_prices, h]
  · simp

/-- C9 amended: every run whose extraction yields zero priced swaps
reports the same fixed record `{prices := [], error := 'No prices found'}`,
regardless of whether the event list was empty or merely unpriceable. -/
theorem c9_no_prices_report (info : PoolInfo) (tokenAddress : String)
    (ethPriceUsd : ℕ → Option ℚ) (swapEvents : List RawEvent)
    (h : PriceExtractor.extract_prices info tokenAddress ethPriceUsd swapEvents = []) :
    PriceExtractor.analyze_token_complete info tokenAddress ethPriceUsd swapEvents =
      { prices := [], error := some "No prices found" } := by
  simp [PriceExtractor.analyze_token_complete, h]

namespace EnhancedUSDTOracle

/-- A cache hit short-circuits all tiers: the cached scaled price is
returned with zero historical reads and an unchanged cache. -/
theorem oracle_hit (t1 : ℕ → Option ℚ) (t2 : Option ℚ) (c : PriceCache)
    (b : ℕ) (v : ℤ) (h : lookupCache c (bucketKey b) = some v) :
    get_eth_usdt_price_scaled t1 t2 c b = (some v, 0, c) := by
  simp only [get_eth_usdt_price_scaled, h]

/-- A cache miss performs exactly one historical read and caches the
scaled price it settles on under the queried block's bucket key. -/
theorem oracle_miss (t1 : ℕ → Option ℚ) (t2 : Option ℚ) (c : PriceCache)
    (b : ℕ) (h : lookupCache c (bucketKey b) = none) :
    ∃ s : ℤ, get_eth_usdt_price_scaled t1 t2 c b = (some s, 1, (bucketKey b, s) :: c) := by
  simp only [get_eth_usdt_price_scaled, h]
  rcases ht : t1 b with _ | p
  · simp only [tier2Result]
    rcases ht2 : t2 with _ | q
    · exact ⟨3500000000, rfl⟩
    · by_cases hq : 0 < q
      · simp only [if_pos hq]
        exact ⟨_, rfl⟩
      · simp only [if_neg hq]
        exact ⟨3500000000, rfl⟩
  · by_cases hp : 0 < p
    · simp only [if_pos hp]
      exact ⟨_, rfl⟩
    · simp only [if_neg hp]
      simp only [tier2Result]
      rcases ht2 : t2 with _ | q
      · exact ⟨3500000000, rfl⟩
      · by_cases hq : 0 < q
        · simp only [if_pos hq]
          exact ⟨_, rfl⟩
        · simp only [if_neg hq]
          exact ⟨3500000000, rfl⟩

/-- A query never removes or overwrites existing cache entries. -/
theorem oracle_preserves (t1 : ℕ → Option ℚ) (t2 : Option ℚ) (c : PriceCache)
    (b k : ℕ) (v : ℤ) (h : lookupCache c k = some v) :
    lookupCache (get_eth_usdt_price_scaled t1 t2 c b).2.2 k = some v := by
  rcases hm : lookupCache c (bucketKey b) with _ | v'
  · obtain ⟨s, hs⟩ := oracle_miss t1 t2 c b hm
    rw [hs]
    have hne : bucketKey b ≠ k := by
      intro he
      rw [he, h] at hm
      exact Option.noConfusion hm
    simp only [lookupCache, if_neg hne]
    exact h
  · rw [oracle_hit t1 t2 c b v' hm]
    exact h

/-- Invariant for a run: the queries of an already-cached bucket perform
zero historical reads, and any bucket's queries perform at most one in
total. -/
theorem bucketReads_aux (t1 : ℕ → Option ℚ) (t2 : Option ℚ) :
    ∀ (blocks : List ℕ) (c : PriceCache) (β : ℕ),
    (lookupCache c β ≠ none → bucketReads t1 t2 c blocks β = 0) ∧
    bucketReads t1 t2 c blocks β ≤ 1 := by
  intro blocks
  induction blocks with
  | nil =>
    intro c β
    exact ⟨fun _ => rfl, by simp [bucketReads]⟩
  | cons b bs ih =>
    intro c β
    have hstep : ∀ c' : PriceCache, bucketReads t1 t2 c (b :: bs) β =
        (if bucketKey b = β then (get_eth_usdt_price_scaled t1 t2 c b).2.1 else 0) +
          bucketReads t1 t2 (get_eth_usdt_price_scaled t1 t2 c b).2.2 bs β :=
      fun _ => rfl
    constructor
    · intro hc
      rcases hv : lookupCache c β with _ | v
      · exact absurd hv hc
      rw [hstep c]
      have hpres : lookupCache (get_eth_usdt_price_scaled t1 t2 c b).2.2 β = some v :=
        oracle_preserves t1 t2 c b β v hv
      have htail : bucketReads t1 t2 (get_eth_usdt_price_scaled t1 t2 c b).2.2 bs β = 0 :=
        (ih _ β).1 (by rw [hpres]; exact fun hx => Option.noConfusion hx)
      by_cases hb : bucketKey b = β
      · have hm : lookupCache c (bucketKey b) = some v := by rw [hb]; exact hv
        rw [oracle_hit t1 t2 c b v hm] at htail ⊢
        simp [htail]
      · rw [if_neg hb, zero_add]
        exact htail
    · rw [hstep c]
      by_cases hb : bucketKey b = β
      · rcases hm : lookupCache c (bucketKey b) with _ | v
        · obtain ⟨s, hs⟩ := oracle_miss t1 t2 c b hm
          rw [hs, if_pos hb]
          have htail : bucketReads t1 t2 ((bucketKey b, s) :: c) bs β = 0 :=
            (ih _ β).1 (by simp [lookupCache, hb])
          simp [htail]
        · rw [oracle_hit t1 t2 c b v hm, if_pos hb]
          have htail : bucketReads t1 t2 c bs β = 0 :=
            (ih c β).1 (by rw [← hb, hm]; exact fun hx => Option.noConfusion hx)
          simp [htail]
      · rw [if_neg hb, zero_add]
        exact (ih _ β).2

end EnhancedUSDTOracle

/-- C6: within one run (starting from an empty cache), the queries whose
blocks fall in any single `cache_block_size`-wide bucket perform at most
one historical-state read in total, and once a bucket is cached every
query for a block of that bucket returns the cached scaled price with
zero reads and no cache change. -/
theorem c6_oracle_cache_bucket (t1 : ℕ → Option ℚ) (t2 : Option ℚ)
    (blocks : List ℕ) (β : ℕ) :
    EnhancedUSDTOracle.bucketReads t1 t2 [] blocks β ≤ 1 ∧
    (∀ (c : EnhancedUSDTOracle.PriceCache) (b : ℕ) (v : ℤ),
      EnhancedUSDTOracle.lookupCache c (EnhancedUSDTOracle.bucketKey b) = some v →
      EnhancedUSDTOracle.get_eth_usdt_price_scaled t1 t2 c b = (some v, 0, c)) :=
  ⟨(EnhancedUSDTOracle.bucketReads_aux t1 t2 blocks [] β).2,
    fun c b v h => EnhancedUSDTOracle.oracle_hit t1 t2 c b v h⟩

/-- C6 witness: a concrete run of three queries (two in bucket 0, one in
bucket 600) reads at most once for bucket 0, and a concrete pre-cached
query hits without reads. -/
theorem c6_witness :
    EnhancedUSDTOracle.bucketReads (fun _ => some 2000) none [] [100, 250, 700] 0 ≤ 1 ∧
    EnhancedUSDTOracle.get_eth_usdt_price_scaled (fun _ => some 2000) none
      [(0, 5)] 42 = (some 5, 0, [(0, 5)]) := by
  have h := c6_oracle_cache_bucket (fun _ => some 2000) none [100, 250, 700] 0
  exact ⟨h.1, h.2 [(0, 5)] 42 5 (by decide)⟩

namespace EtherscanClient

/-- Outside the range the chunk walk is empty, whatever the fuel. -/
theorem chunksAux_empty (batchSize fuel cur toB : ℕ) (h : toB < cur) :
    chunksAux batchSize fuel cur toB = [] := by
  cases fuel with
  | zero => rfl
  | succ n => simp [chunksAux, Nat.not_le.mpr h]

/-- Every block of `[cur, toB]` lies in exactly one chunk, and no block
outside the range lies in any, provided the fuel covers the range and the
batch size is positive. -/
theorem chunksAux_countP (batchSize : ℕ) (hbs : 1 ≤ batchSize) :
    ∀ (fuel cur toB : ℕ), toB + 1 - cur ≤ fuel → ∀ b : ℕ,
    (chunksAux batchSize fuel cur toB).countP
        (fun ck => decide (ck.1 ≤ b ∧ b ≤ ck.2)) =
      if cur ≤ b ∧ b ≤ toB then 1 else 0 := by
  intro fuel
  induction fuel with
  | zero =>
    intro cur toB hfuel b
    have : toB < cur := by omega
    rw [chunksAux_empty batchSize 0 cur toB this]
    rw [if_neg (by omega)]
    rfl
  | succ n ih =>
    intro cur toB hfuel b
    by_cases hc : cur ≤ toB
    · have hcur : cur ≤ min (cur + batchSize - 1) toB := le_min (by omega) hc
      have hend : min (cur + batchSize - 1) toB ≤ toB := min_le_right _ _
      simp only [chunksAux, if_pos hc, List.countP_cons]
      rw [ih (min (cur + batchSize - 1) toB + 1) toB (by omega) b]
      simp only [decide_eq_true_eq]
      split_ifs <;> omega
    · rw [chunksAux_empty batchSize (n + 1) cur toB (by omega)]
      rw [if_neg (by omega)]
      rfl

/-- Each chunk is a nonempty interval at most `batchSize` blocks wide. -/
theorem chunksAux_width (batchSize : ℕ) (hbs : 1 ≤ batchSize) :
    ∀ (fuel cur toB : ℕ), ∀ ck ∈ chunksAux batchSize fuel cur toB,
    ck.2 + 1 - ck.1 ≤ batchSize ∧ ck.1 ≤ ck.2 := by
  intro fuel
  induction fuel with
  | zero =>
    intro cur toB ck hck
    exact absurd hck (by simp [chunksAux])
  | succ n ih =>
    intro cur toB ck hck
    by_cases hc : cur ≤ toB
    · simp only [chunksAux, if_pos hc, List.mem_cons] at hck
      rcases hck with hck | hck
      · subst hck
        constructor
        · simp only []
          omega
        · exact le_min (by omega) hc
      · exact ih _ _ ck hck
    · exact absurd hck (by simp [chunksAux, hc])

/-- The accumulating fetch loop equals the accumulator followed by the
per-chunk results of the chunk walk: failed chunks contribute nothing and
earlier results are preserved. -/
theorem getSwapEventsAux_eq {α : Type} (fetch : ℕ → ℕ → Except String (List α))
    (batchSize : ℕ) :
    ∀ (fuel cur toB : ℕ) (acc : List α),
    getSwapEventsAux fetch batchSize fuel cur toB acc =
      acc ++ ((chunksAux batchSize fuel cur toB).map (chunkResult fetch)).join := by
  intro fuel
  induction fuel with
  | zero =>
    intro cur toB acc
    simp [getSwapEventsAux, chunksAux]
  | succ n ih =>
    intro cur toB acc
    by_cases hc : cur ≤ toB
    · simp only [getSwapEventsAux, chunksAux, if_pos hc, List.map_cons, List.join]
      rw [ih]
      rcases hf : fetch cur (min (cur + batchSize - 1) toB) with err | logs
      · simp [chunkResult, hf]
      · simp [chunkResult, hf]
    · simp [getSwapEventsAux, chunksAux, hc]

/-- The chunk walk is insensitive to extra fuel once the fuel covers the
range: the loop terminates after covering `[cur, toB]`. -/
theorem chunksAux_fuel (batchSize : ℕ) (hbs : 1 ≤ batchSize) :
    ∀ (fuelA fuelB cur toB : ℕ), toB + 1 - cur ≤ fuelA → toB + 1 - cur ≤ fuelB →
    chunksAux batchSize fuelA cur toB = chunksAux batchSize fuelB cur toB := by
  intro fuelA
  induction fuelA with
  | zero =>
    intro fuelB cur toB hA hB
    have h : toB < cur := by omega
    rw [chunksAux_empty batchSize 0 cur toB h, chunksAux_empty batchSize fuelB cur toB h]
  | succ n ih =>
    intro fuelB cur toB hA hB
    by_cases hc : cur ≤ toB
    · rcases fuelB with _ | m
      · omega
      · have hcur : cur ≤ min (cur + batchSize - 1) toB := le_min (by omega) hc
        simp only [chunksAux, if_pos hc]
        rw [ih m (min (cur + batchSize - 1) toB + 1) toB (by omega) (by omega)]
    · have h : toB < cur := by omega
      rw [chunksAux_empty batchSize (n + 1) cur toB h,
        chunksAux_empty batchSize fuelB cur toB h]

end EtherscanClient

/-- C8: for `fromBlock ≤ toBlock` and a positive per-request block limit,
the fetch loop of `get_swap_events` partitions the range into consecutive
chunks of at most `batchSize` blocks, each block of the range lying in
exactly one requested chunk (blocks outside it in none); the collected
logs are exactly the concatenation of the successful chunks' results, so
a failed chunk is skipped while earlier results are preserved and an
empty-result chunk contributes an empty list and advances normally; and
any fuel covering the range yields the same result, i.e. the loop
terminates after `toBlock + 1 - fromBlock` iterations. -/
theorem c8_chunked_fetch {α : Type} (fetch : ℕ → ℕ → Except String (List α))
    (batchSize fromBlock toBlock : ℕ) (hbs : 1 ≤ batchSize) :
    (∀ b : ℕ,
      (EtherscanClient.chunks batchSize fromBlock toBlock).countP
          (fun ck => decide (ck.1 ≤ b ∧ b ≤ ck.2)) =
        if fromBlock ≤ b ∧ b ≤ toBlock then 1 else 0) ∧
    (∀ ck ∈ EtherscanClient.chunks batchSize fromBlock toBlock,
      ck.2 + 1 - ck.1 ≤ batchSize ∧ ck.1 ≤ ck.2) ∧
    EtherscanClient.get_swap_events fetch fromBlock toBlock batchSize =
      ((EtherscanClient.chunks batchSize fromBlock toBlock).map
        (EtherscanClient.chunkResult fetch)).join ∧
    (∀ fuel : ℕ, toBlock + 1 - fromBlock ≤ fuel →
      EtherscanClient.getSwapEventsAux fetch batchSize fuel fromBlock toBlock [] =
        EtherscanClient.get_swap_events fetch fromBlock toBlock batchSize) := by
  refine ⟨?_, ?_, ?_, ?_⟩
  · intro b
    exact EtherscanClient.chunksAux_countP batchSize hbs _ fromBlock toBlock le_rfl b
  · intro ck hck
    exact EtherscanClient.chunksAux_width batchSize hbs _ fromBlock toBlock ck hck
  · rw [EtherscanClient.get_swap_events, EtherscanClient.getSwapEventsAux_eq]
    rfl
  · intro fuel hfuel
    rw [EtherscanClient.get_swap_events, EtherscanClient.getSwapEventsAux_eq,
      EtherscanClient.getSwapEventsAux_eq]
    rw [EtherscanClient.chunksAux_fuel batchSize hbs fuel (toBlock + 1 - fromBlock)
      fromBlock toBlock hfuel le_rfl]

/-- C1 witness: the direction symmetry at `X = 1`, `Y = 2` on a concrete
18/18-decimals pool. -/
theorem c1_witness :
    UniswapV2.calculate_token_price ⟨1, 0, 0, 2⟩ ⟨"0xa", "0xb", 18, 18⟩ "0xa" =
      some ((((2 : ℕ) : ℚ) / 10 ^ 18) / (((1 : ℕ) : ℚ) / 10 ^ 18)) ∧
    UniswapV2.calculate_token_price ⟨1, 0, 0, 2⟩ ⟨"0xa", "0xb", 18, 18⟩ "0xb" =
      some ((((1 : ℕ) : ℚ) / 10 ^ 18) / (((2 : ℕ) : ℚ) / 10 ^ 18)) ∧
    (((2 : ℕ) : ℚ) / 10 ^ 18) / (((1 : ℕ) : ℚ) / 10 ^ 18) *
      ((((1 : ℕ) : ℚ) / 10 ^ 18) / (((2 : ℕ) : ℚ) / 10 ^ 18)) = 1 :=
  c1_v2_direction_symmetry 1 2 ⟨"0xa", "0xb", 18, 18⟩ (by decide) (by decide)
    (by decide) (by decide) (by decide)

/-- C2 witness: a concrete swap with `sqrtPriceX96 = 2 * 2^96` prices
token0 at the primary ratio `4`. -/
theorem c2_witness :
    UniswapV3.calculate_token_price ⟨3, 4, 2 * 2 ^ 96⟩ ⟨"0xa", "0xb", 18, 18⟩ "0xa" =
      some 4 := by
  have h := (c2_v3_primary_price ⟨3, 4, 2 * 2 ^ 96⟩ ⟨"0xa", "0xb", 18, 18⟩ "0xa"
    (by norm_num) 4 (by push_cast; norm_num)).1 (by decide)
  exact h.1 (by norm_num)

/-- C3 witness: the amended fallback statement at a concrete
both-legs-positive swap. -/
theorem c3_witness :
    UniswapV3.fallbackPrice ⟨2 * 10 ^ 18, 10 ^ 18, 0⟩ ⟨"0xa", "0xb", 18, 18⟩ "0xa" =
      if 0 < |(1 : ℚ)| / |(2 : ℚ)| ∧ |(1 : ℚ)| / |(2 : ℚ)| ≤ 10 ^ 10 then
        some (|(1 : ℚ)| / |(2 : ℚ)|)
      else none :=
  ((c3_v3_fallback_sign_branches ⟨2 * 10 ^ 18, 10 ^ 18, 0⟩ ⟨"0xa", "0xb", 18, 18⟩
      "0xa" 2 1 (by push_cast; norm_num) (by push_cast; norm_num)).1 rfl).1
    (Or.inl ⟨by norm_num, by norm_num⟩)

/-- C4 witness: the analyzer's gating at a concrete buy of 1 WETH against
5 tokens with threshold 0.1 WETH. -/
theorem c4_witness :
    ((true : Bool) = true → 0 < (1000000000000000000 : ℕ) ∧ 0 < (5000000000000000000 : ℕ)) ∧
    ((true : Bool) = false → 0 < (0 : ℕ) ∧ 0 < (0 : ℕ)) ∧
    (1 : ℚ) / 10 ≤ BigBuyAnalyzer.eth_amount
      ⟨1000000000000000000, 0, 0, 5000000000000000000⟩ 18 18 true :=
  c4_analyzer_buy_gating ⟨1000000000000000000, 0, 0, 5000000000000000000⟩ 18 18 true
    ((1 : ℚ) / 10) (by norm_num)
    (by simp [BigBuyAnalyzer.flags_big_buy, BigBuyAnalyzer.eth_amount]; norm_num)

/-- C5 witness: the boundary facts at concrete values, including a WETH
leg of exactly `10^17` wei flagged by the enhanced oracle. -/
theorem c5_witness :
    BigBuyFilter.filter_big_buys [⟨(1 : ℚ) / 2⟩] ((1 : ℚ) / 2) = [⟨(1 : ℚ) / 2⟩] ∧
    USDTOracle.is_big_buy_usdt (some 100000000) 100000000 = true ∧
    (EnhancedUSDTOracle.get_usdt_value_for_swap ⟨EnhancedUSDTOracle.WETH, "0xt"⟩
      none ⟨10 ^ 17, 0, 0⟩).2 = true := by
  have h := c5_threshold_boundary ((1 : ℚ) / 2) 100000000 ⟨(1 : ℚ) / 2⟩ "0xt"
    (10 ^ 17) 0 0 (by decide) (by decide)
  exact ⟨h.1 rfl, h.2.2.1, h.2.2.2.2.1 (by decide)⟩

/-- C7 witness: the amended error policy at concrete inputs — a token in
neither slot for both calculators, and the all-zero V3 swap with
`sqrtPriceX96 = 0`. -/
theorem c7_witness :
    UniswapV2.calculate_token_price ⟨0, 0, 0, 0⟩ ⟨"0xa", "0xb", 18, 18⟩ "0xc" = none ∧
    UniswapV3.calculate_token_price ⟨0, 0, 0⟩ ⟨"0xa", "0xb", 18, 18⟩ "0xc" = none := by
  have h := c7_error_policy ⟨0, 0, 0, 0⟩ ⟨0, 0, 0⟩ ⟨"0xa", "0xb", 18, 18⟩ "0xc"
  exact ⟨(h.1 (by decide) (by decide)).1, h.2.2.2.2 rfl rfl rfl⟩

/-- C8 witness: a concrete range `[0, 2500]` with batch size 1000 — the
block 1500 lies in exactly one chunk, and the loop result is the join of
the per-chunk results with the failing first chunk skipped. -/
theorem c8_witness :
    (EtherscanClient.chunks 1000 0 2500).countP
        (fun ck => decide (ck.1 ≤ 1500 ∧ 1500 ≤ ck.2)) = 1 ∧
    EtherscanClient.get_swap_events
        (fun a _ => if a = 0 then Except.error "boom" else Except.ok [a]) 0 2500 1000 =
      ((EtherscanClient.chunks 1000 0 2500).map
        (EtherscanClient.chunkResult
          (fun a _ => if a = 0 then Except.error "boom" else Except.ok [a]))).join := by
  have h := c8_chunked_fetch
    (fun a _ => if a = 0 then Except.error "boom" else Except.ok [a]) 1000 0 2500
    (by decide)
  constructor
  · have h1 := h.1 1500
    rw [h1]
    norm_num
  · exact h.2.2.1

/-- C9 witness: the amended report statement at a concrete empty run. -/
theorem c9_witness :
    PriceExtractor.analyze_token_complete ⟨"0xa", "0xb", 18, 18⟩ "0xz"
        (fun _ => none) [] = { prices := [], error := some "No prices found" } :=
  c9_no_prices_report ⟨"0xa", "0xb", 18, 18⟩ "0xz" (fun _ => none) [] rfl
